import Mathlib

/-!
# Verification of `twisted/trial/_dist/disttrial.py`

A shallow embedding of the distributed trial runner: the worker pool
lifecycle (`WorkerPool.start`, `StartedWorkerPool.join`), the per-worker
driver with its per-case failure boundary (`DistTrialRunner._driveWorker`),
the shared-cursor work-distribution protocol run by all worker drivers over
one iterator, the per-iteration result aggregation (`runTests`), the
run-until-failure loop (`shouldContinue` with `iterateWhile`/
`countingCalls`), and the `runAsync`/`_run` orchestration with its
`try`/`finally` join discipline.

Test cases are identified with their index in the flattened test-case
sequence (the code treats them as opaque handles of stable identity).
Awaitable remote calls are modelled by their outcome: an RPC "run this
case" call is a function `rpc : Nat → Except Unit (List Entry)` giving,
per case, either the entries the worker reports into the result sink
(`.ok`) or that the call raised (`.error`).
-/

namespace Disttrial

/-- Identity of an entry's subject in the result aggregator: either a real
test case (by its index in the flattened sequence) or the synthetic
`TestHolder("<runTests>")` entry used by `runTests` for runner bugs. -/
inductive CaseId where
  | case (idx : Nat)
  | runner
  deriving DecidableEq, Repr

/-- One record in the result aggregator: the reporter channels
`addSuccess`, `addFailure` and `addError` of the result sink. -/
inductive Entry where
  | success (c : CaseId)
  | failure (c : CaseId)
  | error (c : CaseId)
  deriving DecidableEq, Repr

/-- The per-iteration result aggregator (`DistReporter` wrapping the
reporter made by `_makeResult`): the ordered list of recorded entries and
how many times `done()` has been called on it (`writeResults` finalizes by
calling `result.done()`). -/
structure Reporter where
  entries : List Entry
  doneCount : Nat
  deriving DecidableEq, Repr

/-- `result.original.addFailure(case, Failure())`. -/
def Reporter.addFailure (r : Reporter) (c : CaseId) : Reporter :=
  { r with entries := r.entries ++ [Entry.failure c] }

/-- `result.original.addError(case, Failure())`. -/
def Reporter.addError (r : Reporter) (c : CaseId) : Reporter :=
  { r with entries := r.entries ++ [Entry.error c] }

/-- A successful `worker.run(case, result)` call reports its entries into
the shared result sink. -/
def Reporter.addEntries (r : Reporter) (es : List Entry) : Reporter :=
  { r with entries := r.entries ++ es }

/-- `result.done()`: finalize/report the aggregator. -/
def Reporter.done (r : Reporter) : Reporter :=
  { r with doneCount := r.doneCount + 1 }

/-- `wasSuccessful()` of the result sink: no failure or error entries have
been recorded. -/
def Reporter.wasSuccessful (r : Reporter) : Bool :=
  r.entries.all fun e =>
    match e with
    | Entry.success _ => true
    | Entry.failure _ => false
    | Entry.error _ => false

/-- The freshly-made result object of one iteration (`self._makeResult()`):
nothing recorded, not yet finalized. -/
def emptyReporter : Reporter := ⟨[], 0⟩

/-- The body of `task` inside `DistTrialRunner._driveWorker`:
`try: await worker.run(case, result) except Exception:
result.original.addFailure(case, Failure())` — the per-case failure
boundary. -/
def task (rpc : Nat → Except Unit (List Entry)) (r : Reporter) (c : Nat) :
    Reporter :=
  match rpc c with
  | Except.ok es => r.addEntries es
  | Except.error _ => r.addFailure (CaseId.case c)

/-- `DistTrialRunner._driveWorker`, restricted to the sub-sequence of
cases this driver pulls from the shared iterator: `for case in testCases:
await task(case)`. -/
def driveWorker (rpc : Nat → Except Unit (List Entry)) (r : Reporter)
    (testCases : List Nat) : Reporter :=
  testCases.foldl (task rpc) r

/-- The entries contributed by processing cases `cs` through the per-case
boundary. -/
def taskOutput (rpc : Nat → Except Unit (List Entry)) (cs : List Nat) :
    List Entry :=
  cs.flatMap fun c =>
    match rpc c with
    | Except.ok es => es
    | Except.error _ => [Entry.failure (CaseId.case c)]

/-! ## Worker pool: configuration, start, join -/

/-- `WorkerPoolConfig`: configuration parameters for a pool of
test-running workers. -/
structure WorkerPoolConfig where
  numWorkers : Nat
  workerArguments : List String
  logFile : String
  deriving DecidableEq, Repr

/-- `StartedWorkerPool`: the claimed working directory's lock, the open
log stream, and the worker handles (`workers` are the `LocalWorker`
process protocols, `ampWorkers` the matching AMP protocol instances;
both are identified by worker index). -/
structure StartedWorkerPool where
  workers : List Nat
  ampWorkers : List Nat
  logOpen : Bool
  lockHeld : Bool
  deriving DecidableEq, Repr

/-- Observable effect of one step of `StartedWorkerPool.join`'s loop:
`await worker.exit()` succeeded, or it raised and the failure was logged
(`self._logger.failure("joining disttrial worker failed")`). -/
inductive JoinEv where
  | exited (w : Nat)
  | loggedExitFailure (w : Nat)
  deriving DecidableEq, Repr

/-- The `for worker in self.workers: try: await worker.exit() except
Exception: self._logger.failure(...)` loop of `join`; `exitOk w` tells
whether worker `w`'s exit request succeeds. -/
def joinLoop (exitOk : Nat → Bool) : List Nat → List JoinEv
  | [] => []
  | w :: ws =>
      (if exitOk w then JoinEv.exited w else JoinEv.loggedExitFailure w) ::
        joinLoop exitOk ws

/-- `StartedWorkerPool.join`: attempt a graceful exit for every worker,
then `del self.workers[:]`, `del self.ampWorkers[:]`,
`self.testLog.close()`, `self.testDirLock.unlock()`. Returns the pool
state after joining and the per-worker exit events. -/
def StartedWorkerPool.join (p : StartedWorkerPool) (exitOk : Nat → Bool) :
    StartedWorkerPool × List JoinEv :=
  (⟨[], [], false, false⟩, joinLoop exitOk p.workers)

/-- `WorkerPool.createLocalWorkers`: one `LocalWorker` per AMP protocol
instance, indexed by enumeration. -/
def createLocalWorkers (protocols : List Nat) : List Nat := protocols

/-- `WorkerPool._launchWorkerProcesses`: spawn one subprocess per worker
protocol; a raise from `spawner` propagates, so spawning stops at the
first failure. Returns the list of workers actually spawned. -/
def launchWorkerProcesses (spawn : Nat → Except Unit Unit) :
    List Nat → Except Unit (List Nat)
  | [] => Except.ok []
  | w :: ws =>
      match spawn w with
      | Except.error e => Except.error e
      | Except.ok _ =>
          match launchWorkerProcesses spawn ws with
          | Except.error e => Except.error e
          | Except.ok rest => Except.ok (w :: rest)

/-- `WorkerPool.start`: claim a test directory and lock
(`_unusedTestDirectory`, outcome `alloc`), open the log, build one AMP
protocol per index `0..numWorkers-1`, create the local workers, spawn the
processes, and return the assembled `StartedWorkerPool` together with the
list of spawned worker processes. Any allocation or spawn failure
propagates and no pool is returned. -/
def WorkerPool.start (alloc : Except Unit Unit)
    (spawn : Nat → Except Unit Unit) (cfg : WorkerPoolConfig) :
    Except Unit (StartedWorkerPool × List Nat) :=
  match alloc with
  | Except.error e => Except.error e
  | Except.ok _ =>
      let ampWorkers := List.range cfg.numWorkers
      let workers := createLocalWorkers ampWorkers
      match launchWorkerProcesses spawn workers with
      | Except.error e => Except.error e
      | Except.ok spawned =>
          Except.ok (⟨workers, ampWorkers, true, true⟩, spawned)

/-! ## The shared-cursor work-distribution protocol

`runTests` passes the *same* `partial(self._driveWorker, result,
iter(testCases))` to every worker in the fan-out of
`StartedWorkerPool.run`, so all worker drivers pull from one shared
iterator. Under the reactor's single-threaded cooperative scheduling,
`next()` on the iterator (the `for case in testCases` step of
`_driveWorker`) is a single non-suspending step, while `await
worker.run(...)` is a suspension point. We model one iteration's fan-out
as a state machine: a schedule (arbitrary list of driver indices) decides
which driver moves next; a driver's move is either an atomic pop of the
shared cursor, the completion of its pending RPC call (recording into the
shared reporter through the per-case boundary `task`), or, on an
exhausted cursor, termination of that driver's loop. -/

/-- The state of one worker driver's `_driveWorker` coroutine: the case
indices it has popped from the shared iterator so far, the ones whose
`task` call has completed, the case it is currently awaiting (if any),
and whether its `for` loop has ended. -/
structure DriverState where
  claimed : List Nat
  ran : List Nat
  current : Option Nat
  finished : Bool
  deriving DecidableEq, Repr

/-- Shared state of one iteration's fan-out: the shared iterator's
position, the driver coroutines, and the shared result aggregator. -/
structure IterState where
  cursor : Nat
  drivers : List DriverState
  reporter : Reporter
  deriving DecidableEq, Repr

/-- A driver that has not yet taken any step. -/
def DriverState.initial : DriverState := ⟨[], [], none, false⟩

/-- Fan-out start state: fresh shared iterator over the whole sequence,
`w` drivers (one per AMP worker), fresh aggregator. -/
def initState (w : Nat) : IterState :=
  ⟨0, List.replicate w DriverState.initial, emptyReporter⟩

/-- One cooperative step of driver `i` in an iteration over `n` test
cases. If the driver is awaiting an RPC, the call completes and its
outcome is recorded through the per-case boundary (`task`). Otherwise the
driver pops the shared cursor: a single atomic step that claims the next
case, or ends the driver's loop when the iterator is exhausted. Steps of
finished or non-existent drivers change nothing. -/
def stepDriver (rpc : Nat → Except Unit (List Entry)) (n : Nat)
    (s : IterState) (i : Nat) : IterState :=
  match s.drivers[i]? with
  | none => s
  | some d =>
      if d.finished then s
      else
        match d.current with
        | some c =>
            { s with
                drivers := s.drivers.set i
                  { d with ran := d.ran ++ [c], current := none },
                reporter := task rpc s.reporter c }
        | none =>
            if s.cursor < n then
              { s with
                  cursor := s.cursor + 1,
                  drivers := s.drivers.set i
                    { d with
                        claimed := d.claimed ++ [s.cursor],
                        current := some s.cursor } }
            else
              { s with
                  drivers := s.drivers.set i { d with finished := true } }

/-- Run a whole cooperative schedule (a list of driver indices) from a
state. -/
def runSchedule (rpc : Nat → Except Unit (List Entry)) (n : Nat)
    (s : IterState) (sched : List Nat) : IterState :=
  sched.foldl (stepDriver rpc n) s

/-- All driver loops have ended. -/
def allFinished (s : IterState) : Bool :=
  s.drivers.all fun d => d.finished

/-- Inductive invariant of the shared-cursor protocol: the cursor never
passes the end of the sequence; a driver's loop ends only once the
iterator is exhausted; a finished driver awaits nothing; every claimed
case is either already run or the one currently awaited, in claim order;
and the cases claimed across all drivers are exactly the cursor's prefix
of the sequence, each claimed once. -/
def Inv (n : Nat) (s : IterState) : Prop :=
  s.cursor ≤ n ∧
  (∀ d ∈ s.drivers, d.finished = true → s.cursor = n) ∧
  (∀ d ∈ s.drivers, d.finished = true → d.current = none) ∧
  (∀ d ∈ s.drivers, d.claimed = d.ran ++ d.current.toList) ∧
  (s.drivers.map DriverState.claimed).flatten.Perm (List.range s.cursor)

/-! ## Iteration, run-until-failure loop, and `runAsync` orchestration -/

/-- Decision of `shouldContinue(untilFailure, result)`: iterate the suite
again exactly when running until failure and the just-completed
iteration's result was successful. -/
def shouldContinue (untilFailure : Bool) (result : Reporter) : Bool :=
  untilFailure && result.wasSuccessful

/-- A line written to the runner's stream: the `"Running {n} tests.\n"`
announcement or a `"Test Pass {n}\n"` progress line. -/
inductive Line where
  | announce (total : Nat)
  | testPass (n : Nat)
  deriving DecidableEq, Repr

/-- Predicate picking out announcement lines. -/
def isAnnounce : Line → Bool
  | Line.announce _ => true
  | Line.testPass _ => false

/-- Predicate picking out progress lines. -/
def isTestPass : Line → Bool
  | Line.announce _ => false
  | Line.testPass _ => true

/-- Body of `runTests` inside `runAsync`, for call number `n` (zero
based): write `"Test Pass {n+1}"` to the stream iff `untilFailure`; make
a fresh result; run the fan-out over the worker pool; if an exception
escapes the per-case boundary, record it on the result against the
synthetic `TestHolder("<runTests>")` entry instead of crashing; finalize
(`writeResults`, i.e. `result.done()`) and return the result. `fanout n`
is the outcome of `await pool.run(partial(self._driveWorker, result,
iter(testCases)))` starting from the fresh result: `.ok` with the result
as filled in by the worker drivers, or `.error` carrying the result state
at the moment an exception escaped. -/
def runTests (untilFailure : Bool) (fanout : Nat → Except Reporter Reporter)
    (n : Nat) (stream : List Line) : Reporter × List Line :=
  let stream1 :=
    if untilFailure then stream ++ [Line.testPass (n + 1)] else stream
  let result :=
    match fanout n with
    | Except.ok r => r
    | Except.error r => r.addError CaseId.runner
  (result.done, stream1)

/-- The finalized result of iteration `n` alone (the first component of
`runTests`, which does not depend on the stream). -/
def iterReporter (fanout : Nat → Except Reporter Reporter) (n : Nat) :
    Reporter :=
  match fanout n with
  | Except.ok r => r.done
  | Except.error r => (r.addError CaseId.runner).done

/-- Modelled from the spec: `iterateWhile` and `countingCalls` come from
`twisted/trial/_dist/functional.py`, which is not among the sources here.
Per the spec's run-until-failure loop, the iteration body is called with
a call counter starting at zero and is repeated while the continuation
predicate holds of the just-completed result; `fuel` bounds the number of
repetitions so the recursion is total (`fuel` extra iterations are
allowed after the first). This returns the result of every iteration
performed, in order. -/
def iterationResults {α : Type _} (pred : α → Bool) (f : Nat → α) :
    Nat → Nat → List α
  | n, 0 => [f n]
  | n, fuel + 1 =>
      let r := f n
      if pred r then r :: iterationResults pred f (n + 1) fuel else [r]

/-- Modelled from the spec: the loop
`iterateWhile(partial(shouldContinue, untilFailure),
countingCalls(partial(runTests, startedPool, testCases)))` with the
stream threaded through the iterations; `fuel` as in
`iterationResults`. Returns the last iteration's result and the final
stream. -/
def runLoop (untilFailure : Bool) (fanout : Nat → Except Reporter Reporter)
    (pred : Reporter → Bool) :
    Nat → List Line → Nat → Reporter × List Line
  | n, stream, 0 => runTests untilFailure fanout n stream
  | n, stream, fuel + 1 =>
      let p := runTests untilFailure fanout n stream
      if pred p.1 then runLoop untilFailure fanout pred (n + 1) p.2 fuel
      else p

/-- The progress lines an `untilFailure` session of `count` iterations
writes after stream position for call counter base `n`. -/
def loopLines (untilFailure : Bool) (count n : Nat) : List Line :=
  if untilFailure then
    (List.range count).map fun i => Line.testPass (n + i + 1)
  else []

/-- How a whole `runAsync` call can fail: `poolStarter.start(reactor)`
raised (directory/lock claim or spawn failure), or an orchestration
error escaped the `iterateWhile` loop inside the `try` block. -/
inductive RunnerFault where
  | startup
  | orchestration
  deriving DecidableEq, Repr

/-- Observable outcome of `DistTrialRunner.runAsync`: the value the
coroutine completes with (or the failure it raises), the lines written to
the runner's stream, and how many times `startedPool.join()` ran. -/
structure RunOutcome where
  result : Except RunnerFault Reporter
  stream : List Line
  joinCount : Nat
  deriving Repr

/-- The `WorkerPoolConfig` that `runAsync` builds: worker count
`min(len(testCases), self._maxWorkers)` ("don't make it larger than is
useful or allowed"), with the runner's worker arguments and log file
name. -/
def poolConfigFor (maxWorkers : Nat) (workerArguments : List String)
    (logFile : String) (testCases : List Nat) : WorkerPoolConfig :=
  ⟨min testCases.length maxWorkers, workerArguments, logFile⟩

/-- Embedding of `DistTrialRunner.runAsync`: write the total-test-count
announcement; start the worker pool (raising without any cleanup if that
fails); then, under `try`/`finally`, run the run-until-failure loop and
join the pool exactly once whether the loop returns or raises.
`startOutcome` is the outcome of `await poolStarter.start(reactor)`;
`loopFault` is `some ()` when an orchestration error escapes the
`iterateWhile` call itself; `fanout` and `fuel` parametrize the loop as
in `runLoop`. -/
def runAsync (total : Nat) (untilFailure : Bool)
    (startOutcome : Except Unit (StartedWorkerPool × List Nat))
    (loopFault : Option Unit)
    (fanout : Nat → Except Reporter Reporter) (fuel : Nat) : RunOutcome :=
  let stream0 := [Line.announce total]
  match startOutcome with
  | Except.error _ => ⟨Except.error RunnerFault.startup, stream0, 0⟩
  | Except.ok _ =>
      match loopFault with
      | some _ => ⟨Except.error RunnerFault.orchestration, stream0, 1⟩
      | none =>
          let p :=
            runLoop untilFailure fanout (shouldContinue untilFailure) 0
              stream0 fuel
          ⟨Except.ok p.1, p.2, 1⟩

/-- What the synchronous caller of `DistTrialRunner._run` observes. -/
inductive SyncOutcome where
  | raised (f : RunnerFault)
  | returned (r : Reporter)
  deriving DecidableEq, Repr

/-- Embedding of `DistTrialRunner._run`: drive `runAsync` to completion
inside the reactor, capture what it produced, stop the reactor; if a
`Failure` was captured re-raise it to the caller, otherwise return the
captured reporter. -/
def runSync (o : RunOutcome) : SyncOutcome :=
  match o.result with
  | Except.error f => SyncOutcome.raised f
  | Except.ok r => SyncOutcome.returned r

/-- One iteration's finalized result when the fan-out is the
shared-cursor machine over `n` cases and `w` worker drivers under
cooperative schedule `sched`. -/
def iterationResult (rpc : Nat → Except Unit (List Entry)) (n w : Nat)
    (sched : List Nat) : Reporter :=
  (runTests false
    (fun _ => Except.ok (runSchedule rpc n (initState w) sched).reporter)
    0 []).1

/-! ## Properties -/

theorem driveWorker_append (rpc : Nat → Except Unit (List Entry))
    (r : Reporter) (xs ys : List Nat) :
    driveWorker rpc r (xs ++ ys) = driveWorker rpc (driveWorker rpc r xs) ys :=
  List.foldl_append _ _ _ _

theorem task_entries (rpc : Nat → Except Unit (List Entry)) (r : Reporter)
    (c : Nat) :
    (task rpc r c).entries =
      r.entries ++
        (match rpc c with
         | Except.ok es => es
         | Except.error _ => [Entry.failure (CaseId.case c)]) := by
  unfold task
  cases rpc c <;>
    simp [Reporter.addEntries, Reporter.addFailure]

theorem driveWorker_entries (rpc : Nat → Except Unit (List Entry))
    (r : Reporter) (cs : List Nat) :
    (driveWorker rpc r cs).entries = r.entries ++ taskOutput rpc cs := by
  induction cs generalizing r with
  | nil => simp [driveWorker, taskOutput]
  | cons c cs ih =>
      rw [show (c :: cs) = [c] ++ cs from rfl, driveWorker_append, ih]
      show (task rpc r c).entries ++ _ = _
      rw [task_entries]
      cases h : rpc c <;> simp [taskOutput, h]

theorem driveWorker_doneCount (rpc : Nat → Except Unit (List Entry))
    (r : Reporter) (cs : List Nat) :
    (driveWorker rpc r cs).doneCount = r.doneCount := by
  induction cs generalizing r with
  | nil => rfl
  | cons c cs ih =>
      show (driveWorker rpc (task rpc r c) cs).doneCount = _
      rw [ih]
      unfold task
      cases rpc c <;> rfl

theorem set_self_of_getElem? {α : Type _} (l : List α) (i : Nat) (a : α)
    (h : l[i]? = some a) : l.set i a = l := by
  induction l generalizing i with
  | nil => simp at h
  | cons x l ih =>
      cases i with
      | zero => simp_all
      | succ i => simp_all [List.set_cons_succ]

theorem flatten_set_append {α : Type _} (l : List (List α)) (i : Nat)
    (xs ys : List α) (h : l[i]? = some xs) :
    (l.set i (xs ++ ys)).flatten.Perm (l.flatten ++ ys) := by
  induction l generalizing i with
  | nil => simp at h
  | cons x l ih =>
      cases i with
      | zero =>
          simp only [List.getElem?_cons_zero, Option.some.injEq] at h
          subst h
          simp only [List.set_cons_zero, List.flatten_cons, List.append_assoc]
          exact List.Perm.append_left x List.perm_append_comm
      | succ i =>
          simp only [List.getElem?_cons_succ] at h
          simp only [List.set_cons_succ, List.flatten_cons, List.append_assoc]
          exact List.Perm.append_left x (ih i h)

theorem stepDriver_drivers_length (rpc : Nat → Except Unit (List Entry))
    (n : Nat) (s : IterState) (i : Nat) :
    (stepDriver rpc n s i).drivers.length = s.drivers.length := by
  unfold stepDriver
  cases s.drivers[i]? with
  | none => rfl
  | some d =>
      by_cases hf : d.finished
      · simp [hf]
      · simp only [hf, if_false]
        cases d.current with
        | some c => simp
        | none =>
            by_cases hlt : s.cursor < n <;> simp [hlt]

theorem runSchedule_drivers_length (rpc : Nat → Except Unit (List Entry))
    (n : Nat) (s : IterState) (sched : List Nat) :
    (runSchedule rpc n s sched).drivers.length = s.drivers.length := by
  induction sched generalizing s with
  | nil => rfl
  | cons j sched ih =>
      show (runSchedule rpc n (stepDriver rpc n s j) sched).drivers.length = _
      rw [ih, stepDriver_drivers_length]

theorem inv_initState (n w : Nat) : Inv n (initState w) := by
  refine ⟨Nat.zero_le n, ?_, ?_, ?_, ?_⟩
  · intro d hd hf
    rw [List.eq_of_mem_replicate hd] at hf
    simp [DriverState.initial] at hf
  · intro d hd hf
    rw [List.eq_of_mem_replicate hd] at hf
    simp [DriverState.initial] at hf
  · intro d hd
    rw [List.eq_of_mem_replicate hd]
    rfl
  · show ((List.replicate w DriverState.initial).map
      DriverState.claimed).flatten.Perm (List.range 0)
    rw [List.map_replicate]
    show (List.replicate w ([] : List Nat)).flatten.Perm (List.range 0)
    induction w with
    | zero => simp
    | succ w ih => simp only [List.replicate_succ, List.flatten_cons,
        List.nil_append]; exact ih

theorem inv_stepDriver (rpc : Nat → Except Unit (List Entry)) (n : Nat)
    (s : IterState) (i : Nat) (hs : Inv n s) : Inv n (stepDriver rpc n s i) := by
  obtain ⟨h1, h2, h3, h4, h5⟩ := hs
  unfold stepDriver
  cases hget : s.drivers[i]? with
  | none => exact ⟨h1, h2, h3, h4, h5⟩
  | some d =>
      have hdmem : d ∈ s.drivers := List.getElem?_mem hget
      have hmapget : (s.drivers.map DriverState.claimed)[i]? = some d.claimed := by
        rw [List.getElem?_map, hget]; rfl
      dsimp only
      by_cases hf : d.finished = true
      · rw [if_pos hf]
        exact ⟨h1, h2, h3, h4, h5⟩
      · rw [if_neg hf]
        cases hc : d.current with
        | some c =>
            refine ⟨h1, ?_, ?_, ?_, ?_⟩
            · intro e he hef
              rcases List.mem_or_eq_of_mem_set he with h | rfl
              · exact h2 e h hef
              · exact absurd hef hf
            · intro e he hef
              rcases List.mem_or_eq_of_mem_set he with h | rfl
              · exact h3 e h hef
              · exact absurd hef hf
            · intro e he
              rcases List.mem_or_eq_of_mem_set he with h | rfl
              · exact h4 e h
              · show d.claimed = (d.ran ++ [c]) ++ ([] : List Nat)
                rw [List.append_nil]
                have h := h4 d hdmem
                rw [hc] at h
                exact h
            · show ((s.drivers.set i
                { d with ran := d.ran ++ [c], current := none }).map
                  DriverState.claimed).flatten.Perm (List.range s.cursor)
              rw [List.map_set]
              show ((s.drivers.map DriverState.claimed).set i
                d.claimed).flatten.Perm (List.range s.cursor)
              rw [set_self_of_getElem? _ _ _ hmapget]
              exact h5
        | none =>
            by_cases hlt : s.cursor < n
            · rw [if_pos hlt]
              refine ⟨hlt, ?_, ?_, ?_, ?_⟩
              · intro e he hef
                rcases List.mem_or_eq_of_mem_set he with h | rfl
                · have := h2 e h hef; omega
                · exact absurd hef hf
              · intro e he hef
                rcases List.mem_or_eq_of_mem_set he with h | rfl
                · exact h3 e h hef
                · exact absurd hef hf
              · intro e he
                rcases List.mem_or_eq_of_mem_set he with h | rfl
                · exact h4 e h
                · show d.claimed ++ [s.cursor] = d.ran ++ [s.cursor]
                  have h : d.claimed = d.ran := by
                    have h := h4 d hdmem
                    rw [hc] at h
                    simpa using h
                  rw [h]
              · show ((s.drivers.set i
                  { d with claimed := d.claimed ++ [s.cursor],
                           current := some s.cursor }).map
                    DriverState.claimed).flatten.Perm (List.range (s.cursor + 1))
                rw [List.map_set]
                show ((s.drivers.map DriverState.claimed).set i
                  (d.claimed ++ [s.cursor])).flatten.Perm (List.range (s.cursor + 1))
                refine (flatten_set_append _ i _ _ hmapget).trans ?_
                rw [List.range_succ]
                exact h5.append_right [s.cursor]
            · rw [if_neg hlt]
              have hcn : s.cursor = n := by omega
              refine ⟨h1, ?_, ?_, ?_, ?_⟩
              · intro e _ _
                exact hcn
              · intro e he hef
                rcases List.mem_or_eq_of_mem_set he with h | rfl
                · exact h3 e h hef
                · rfl
              · intro e he
                rcases List.mem_or_eq_of_mem_set he with h | rfl
                · exact h4 e h
                · have h := h4 d hdmem
                  rw [hc] at h
                  exact h
              · show ((s.drivers.set i
                  { claimed := d.claimed, ran := d.ran, current := none,
                    finished := true }).map
                  DriverState.claimed).flatten.Perm (List.range s.cursor)
                rw [List.map_set]
                show ((s.drivers.map DriverState.claimed).set i
                  d.claimed).flatten.Perm (List.range s.cursor)
                rw [set_self_of_getElem? _ _ _ hmapget]
                exact h5

theorem inv_runSchedule (rpc : Nat → Except Unit (List Entry)) (n : Nat)
    (s : IterState) (sched : List Nat) (hs : Inv n s) :
    Inv n (runSchedule rpc n s sched) := by
  induction sched generalizing s with
  | nil => exact hs
  | cons j sched ih => exact ih _ (inv_stepDriver rpc n s j hs)

theorem taskOutput_append (rpc : Nat → Except Unit (List Entry))
    (xs ys : List Nat) :
    taskOutput rpc (xs ++ ys) = taskOutput rpc xs ++ taskOutput rpc ys := by
  simp [taskOutput]

theorem runTests_fst (u : Bool) (fanout : Nat → Except Reporter Reporter)
    (n : Nat) (stream : List Line) :
    (runTests u fanout n stream).1 = iterReporter fanout n := by
  simp only [runTests, iterReporter]
  cases fanout n <;> rfl

theorem runTests_snd (u : Bool) (fanout : Nat → Except Reporter Reporter)
    (n : Nat) (stream : List Line) :
    (runTests u fanout n stream).2 =
      stream ++ (if u then [Line.testPass (n + 1)] else []) := by
  simp only [runTests]
  cases u <;> simp

theorem iterReporter_doneCount (fanout : Nat → Except Reporter Reporter)
    (n : Nat) : 1 ≤ (iterReporter fanout n).doneCount := by
  unfold iterReporter
  cases fanout n <;> simp [Reporter.done]

theorem iterationResults_of_stop {α : Type _} (pred : α → Bool) (f : Nat → α)
    (n fuel : Nat) (hp : pred (f n) = false) :
    iterationResults pred f n fuel = [f n] := by
  cases fuel <;> simp [iterationResults, hp]

theorem runLoop_fst (u : Bool) (fanout : Nat → Except Reporter Reporter)
    (pred : Reporter → Bool) (n : Nat) (stream : List Line) (fuel : Nat) :
    (iterationResults pred (iterReporter fanout) n fuel).getLast? =
      some (runLoop u fanout pred n stream fuel).1 := by
  induction fuel generalizing n stream with
  | zero =>
      simp [iterationResults, runLoop, runTests_fst]
  | succ fuel ih =>
      simp only [iterationResults, runLoop, runTests_fst]
      by_cases hp : pred (iterReporter fanout n) = true
      · rw [if_pos hp, if_pos hp]
        cases hres : iterationResults pred (iterReporter fanout) (n + 1) fuel with
        | nil =>
            have h := ih (n + 1) (runTests u fanout n stream).2
            rw [hres] at h
            simp at h
        | cons a l =>
            have h := ih (n + 1) (runTests u fanout n stream).2
            rw [hres] at h
            rw [List.getLast?_cons_cons]
            exact h
      · rw [if_neg hp, if_neg hp]
        rw [runTests_fst]
        simp

theorem runLoop_fst_doneCount (u : Bool)
    (fanout : Nat → Except Reporter Reporter) (pred : Reporter → Bool)
    (n : Nat) (stream : List Line) (fuel : Nat) :
    1 ≤ (runLoop u fanout pred n stream fuel).1.doneCount := by
  induction fuel generalizing n stream with
  | zero =>
      show 1 ≤ (runTests u fanout n stream).1.doneCount
      rw [runTests_fst]
      exact iterReporter_doneCount fanout n
  | succ fuel ih =>
      simp only [runLoop]
      by_cases hp : pred (runTests u fanout n stream).1 = true
      · rw [if_pos hp]
        exact ih (n + 1) (runTests u fanout n stream).2
      · rw [if_neg hp]
        rw [runTests_fst]
        exact iterReporter_doneCount fanout n

theorem runLoop_snd (u : Bool) (fanout : Nat → Except Reporter Reporter)
    (pred : Reporter → Bool) (n : Nat) (stream : List Line) (fuel : Nat) :
    (runLoop u fanout pred n stream fuel).2 =
      stream ++
        loopLines u (iterationResults pred (iterReporter fanout) n fuel).length n := by
  induction fuel generalizing n stream with
  | zero =>
      show (runTests u fanout n stream).2 = _
      rw [runTests_snd]
      simp only [iterationResults, List.length_cons, List.length_nil,
        loopLines]
      cases u <;> simp [List.range_succ]
  | succ fuel ih =>
      simp only [runLoop, iterationResults, runTests_fst]
      by_cases hp : pred (iterReporter fanout n) = true
      · rw [if_pos hp, if_pos hp]
        rw [ih (n + 1) (runTests u fanout n stream).2, runTests_snd]
        rw [List.length_cons, List.append_assoc]
        congr 1
        cases u with
        | false => simp [loopLines]
        | true =>
            simp only [loopLines, if_true, List.range_succ_eq_map,
              List.map_cons, List.map_map, List.singleton_append]
            congr 1
            apply List.map_congr_left
            intro i _
            show Line.testPass (n + 1 + i + 1) = Line.testPass (n + (i + 1) + 1)
            congr 1
            omega
      · rw [if_neg hp, if_neg hp]
        rw [runTests_snd]
        rw [List.length_cons, List.length_nil]
        cases u <;> simp [loopLines, List.range_succ]

theorem joinLoop_eq_map (exitOk : Nat → Bool) (ws : List Nat) :
    joinLoop exitOk ws =
      ws.map fun w =>
        if exitOk w then JoinEv.exited w else JoinEv.loggedExitFailure w := by
  induction ws with
  | nil => rfl
  | cons w ws ih => simp [joinLoop, ih]

theorem runSchedule_no_drivers (rpc : Nat → Except Unit (List Entry))
    (n : Nat) (sched : List Nat) :
    runSchedule rpc n (initState 0) sched = initState 0 := by
  induction sched with
  | nil => rfl
  | cons j sched ih =>
      show runSchedule rpc n (stepDriver rpc n (initState 0) j) sched = _
      have hstep : stepDriver rpc n (initState 0) j = initState 0 := by
        unfold stepDriver
        have : (initState 0).drivers[j]? = none := by
          simp [initState]
        rw [this]
      rw [hstep, ih]

theorem iterationResult_no_cases (rpc : Nat → Except Unit (List Entry))
    (sched : List Nat) :
    iterationResult rpc 0 0 sched = Reporter.done emptyReporter := by
  unfold iterationResult
  rw [runTests_fst]
  show (runSchedule rpc 0 (initState 0) sched).reporter.done = _
  rw [runSchedule_no_drivers]
  rfl

theorem filter_isAnnounce_map_testPass (f : Nat → Nat) (l : List Nat) :
    (l.map fun i => Line.testPass (f i)).filter isAnnounce = [] := by
  induction l with
  | nil => rfl
  | cons a l ih => simp [isAnnounce, ih]

theorem filter_isTestPass_map_testPass (f : Nat → Nat) (l : List Nat) :
    (l.map fun i => Line.testPass (f i)).filter isTestPass =
      l.map fun i => Line.testPass (f i) := by
  induction l with
  | nil => rfl
  | cons a l ih => simp [isTestPass, ih]

theorem iterationResults_length_iff {α : Type _} (pred : α → Bool)
    (f : Nat → α) (n fuel k : Nat) (hk : k ≤ fuel) :
    k < (iterationResults pred f n fuel).length ↔
      ∀ j < k, pred (f (n + j)) = true := by
  induction fuel generalizing n k with
  | zero =>
      have hk0 : k = 0 := Nat.le_zero.mp hk
      subst hk0
      simp [iterationResults]
  | succ fuel ih =>
      by_cases hp : pred (f n) = true
      · simp only [iterationResults, hp, if_true, List.length_cons]
        cases k with
        | zero => simp
        | succ k =>
            rw [Nat.succ_lt_succ_iff]
            rw [ih (n + 1) k (Nat.le_of_succ_le_succ hk)]
            constructor
            · intro h j hj
              cases j with
              | zero => simpa using hp
              | succ j =>
                  have hjj := h j (Nat.lt_of_succ_lt_succ hj)
                  rw [show n + (j + 1) = n + 1 + j from by omega]
                  exact hjj
            · intro h j hj
              have hjj := h (j + 1) (Nat.succ_lt_succ hj)
              rw [show n + 1 + j = n + (j + 1) from by omega]
              exact hjj
      · have hp' : pred (f n) = false := by
          cases hpp : pred (f n)
          · rfl
          · exact absurd hpp hp
        rw [iterationResults_of_stop pred f n (fuel + 1) hp']
        simp only [List.length_cons, List.length_nil]
        constructor
        · intro hlt j hj
          omega
        · intro h
          rcases Nat.eq_zero_or_pos k with rfl | hpos
          · omega
          · have h0 := h 0 hpos
            rw [Nat.add_zero] at h0
            rw [h0] at hp'
            cases hp'

/-- C3: the run-until-failure loop performs another iteration exactly
when the untilFailure flag is set and the just-completed iteration's
aggregator reports success — encoded: iteration index `k` (zero based) is
performed iff `shouldContinue untilFailure` held of every earlier
iteration's result — and with the flag unset exactly one iteration is
performed regardless of its outcome. -/
theorem loop_iterates_iff_untilFailure_and_success (u : Bool)
    (f : Nat → Reporter) (fuel k : Nat) (hk : k ≤ fuel) :
    (iterationResults (shouldContinue false) f 0 fuel).length = 1 ∧
    (k < (iterationResults (shouldContinue u) f 0 fuel).length ↔
      ∀ j < k, shouldContinue u (f j) = true) := by
  constructor
  · rw [iterationResults_of_stop (shouldContinue false) f 0 fuel rfl]
    rfl
  · have h := iterationResults_length_iff (shouldContinue u) f 0 fuel k hk
    simpa using h

theorem loop_iterates_iff_witness :
    1 < (iterationResults (shouldContinue true)
      (fun _ => emptyReporter) 0 2).length :=
  (loop_iterates_iff_untilFailure_and_success true (fun _ => emptyReporter)
    2 1 (by decide)).2.mpr (by decide)

/-- C4: an exception from the remote run-case call for a case is caught
inside the per-case boundary and recorded against that case in the
iteration's aggregator instead of propagating, and every subsequent case
of the same driver still executes and reports normally. -/
theorem per_case_rpc_failure_isolated (rpc : Nat → Except Unit (List Entry))
    (r : Reporter) (xs : List Nat) (c : Nat) (ys : List Nat)
    (h : rpc c = Except.error ()) :
    driveWorker rpc r (xs ++ c :: ys) =
      driveWorker rpc
        ((driveWorker rpc r xs).addFailure (CaseId.case c)) ys ∧
    (driveWorker rpc r (xs ++ c :: ys)).entries =
      r.entries ++ taskOutput rpc xs ++ [Entry.failure (CaseId.case c)] ++
        taskOutput rpc ys := by
  constructor
  · rw [show xs ++ c :: ys = xs ++ ([c] ++ ys) from rfl]
    rw [driveWorker_append, driveWorker_append]
    congr 1
    show task rpc (driveWorker rpc r xs) c = _
    unfold task
    rw [h]
  · rw [driveWorker_entries]
    rw [show xs ++ c :: ys = xs ++ [c] ++ ys from by simp]
    rw [taskOutput_append, taskOutput_append]
    have hc : taskOutput rpc [c] = [Entry.failure (CaseId.case c)] := by
      simp [taskOutput, h]
    rw [hc]
    simp [List.append_assoc]

theorem per_case_rpc_failure_isolated_witness :
    Entry.failure (CaseId.case 1) ∈
      (driveWorker (fun _ => Except.error ()) emptyReporter
        ([0] ++ 1 :: [2])).entries := by
  rw [(per_case_rpc_failure_isolated (fun _ => Except.error ())
    emptyReporter [0] 1 [2] rfl).2]
  decide

/-- C5: an exception escaping the per-case boundary during the fan-out is
recorded in the iteration's aggregator as an error attributed to the
synthetic runner entry, the iteration is not crashed, and the aggregator
is still finalized and returned as the iteration's result. -/
theorem runner_bug_recorded_and_still_finalized (u : Bool)
    (fanout : Nat → Except Reporter Reporter) (n : Nat)
    (stream : List Line) (r : Reporter)
    (hfault : fanout n = Except.error r) :
    (runTests u fanout n stream).1 = (r.addError CaseId.runner).done ∧
    (runTests u fanout n stream).1.entries =
      r.entries ++ [Entry.error CaseId.runner] ∧
    (runTests u fanout n stream).1.doneCount = r.doneCount + 1 := by
  have h1 : (runTests u fanout n stream).1 = (r.addError CaseId.runner).done := by
    rw [runTests_fst]
    unfold iterReporter
    rw [hfault]
  exact ⟨h1, by rw [h1]; rfl, by rw [h1]; rfl⟩

theorem runner_bug_recorded_witness :
    (runTests false (fun _ => Except.error emptyReporter) 0 []).1.entries =
      [Entry.error CaseId.runner] := by
  rw [(runner_bug_recorded_and_still_finalized false
    (fun _ => Except.error emptyReporter) 0 [] emptyReporter rfl).2.1]
  rfl

/-- C6: during join a failed graceful-exit request is logged and does not
prevent the exit attempt for every remaining worker — each worker gets
its own attempt with its own outcome — and after all workers have been
attempted the worker set is cleared, the log stream is closed, and the
directory lock is released. -/
theorem join_attempts_every_worker_then_releases (p : StartedWorkerPool)
    (exitOk : Nat → Bool) :
    (p.join exitOk).2 =
      p.workers.map (fun w =>
        if exitOk w then JoinEv.exited w else JoinEv.loggedExitFailure w) ∧
    (p.join exitOk).1.workers = [] ∧
    (p.join exitOk).1.ampWorkers = [] ∧
    (p.join exitOk).1.logOpen = false ∧
    (p.join exitOk).1.lockHeld = false :=
  ⟨joinLoop_eq_map exitOk p.workers, rfl, rfl, rfl, rfl⟩

/-- C1: within one iteration, with all worker drivers pulling from the
single shared iterator over the flattened test-case sequence, every test
case is claimed by exactly one worker driver and run exactly once — no
case is dispatched twice and none is omitted — for every
cooperative-scheduling interleaving after which all driver loops have
ended (with at least one driver whenever there are cases). -/
theorem shared_cursor_runs_each_case_exactly_once
    (rpc : Nat → Except Unit (List Entry)) (n w : Nat) (sched : List Nat)
    (hw : n = 0 ∨ 0 < w)
    (hfin : allFinished (runSchedule rpc n (initState w) sched) = true) :
    ((runSchedule rpc n (initState w) sched).drivers.map
        DriverState.ran).flatten.Perm (List.range n) ∧
    ((runSchedule rpc n (initState w) sched).drivers.map
        DriverState.claimed).flatten.Perm (List.range n) := by
  have hlen : (runSchedule rpc n (initState w) sched).drivers.length = w := by
    rw [runSchedule_drivers_length]
    simp [initState]
  obtain ⟨h1, h2, h3, h4, h5⟩ :=
    inv_runSchedule rpc n (initState w) sched (inv_initState n w)
  have hall : ∀ d ∈ (runSchedule rpc n (initState w) sched).drivers,
      d.finished = true := by
    intro d hd
    exact List.all_eq_true.mp hfin d hd
  have hcr : ∀ d ∈ (runSchedule rpc n (initState w) sched).drivers,
      d.ran = d.claimed := by
    intro d hd
    have h := h4 d hd
    rw [h3 d hd (hall d hd)] at h
    simp at h
    exact h.symm
  have hcn : (runSchedule rpc n (initState w) sched).cursor = n := by
    rcases hw with rfl | hwpos
    · omega
    · have hne : (runSchedule rpc n (initState w) sched).drivers ≠ [] := by
        intro hnil
        rw [hnil] at hlen
        simp at hlen
        omega
      obtain ⟨d, hd⟩ := List.exists_mem_of_ne_nil _ hne
      exact h2 d hd (hall d hd)
  have h5n : ((runSchedule rpc n (initState w) sched).drivers.map
      DriverState.claimed).flatten.Perm (List.range n) := by
    rw [hcn] at h5
    exact h5
  refine ⟨?_, h5n⟩
  rw [List.map_congr_left hcr]
  exact h5n

theorem shared_cursor_witness :
    ((runSchedule (fun _ => Except.ok []) 2 (initState 2)
        [0, 1, 0, 1, 0, 1]).drivers.map DriverState.ran).flatten.Perm
      (List.range 2) :=
  (shared_cursor_runs_each_case_exactly_once (fun _ => Except.ok []) 2 2
    [0, 1, 0, 1, 0, 1] (Or.inr (by decide)) (by decide)).1

/-- C2: every run configures its pool with worker count equal to the
minimum of the total test-case count and the configured maximum; for an
empty suite that count is zero, startup spawns no worker process, and the
iteration still completes with a successful, empty, finalized result. -/
theorem effective_worker_count_and_empty_suite (maxWorkers : Nat)
    (args : List String) (logFile : String)
    (spawn : Nat → Except Unit Unit) (rpc : Nat → Except Unit (List Entry))
    (sched : List Nat) :
    (∀ testCases : List Nat,
      (poolConfigFor maxWorkers args logFile testCases).numWorkers =
        min testCases.length maxWorkers) ∧
    (poolConfigFor maxWorkers args logFile []).numWorkers = 0 ∧
    WorkerPool.start (Except.ok ()) spawn
      (poolConfigFor maxWorkers args logFile []) =
        Except.ok (⟨[], [], true, true⟩, []) ∧
    (iterationResult rpc ([] : List Nat).length
      (poolConfigFor maxWorkers args logFile []).numWorkers sched).entries =
        [] ∧
    (iterationResult rpc ([] : List Nat).length
      (poolConfigFor maxWorkers args logFile []).numWorkers
        sched).wasSuccessful = true ∧
    (iterationResult rpc ([] : List Nat).length
      (poolConfigFor maxWorkers args logFile []).numWorkers sched).doneCount =
        1 := by
  have h0 : (poolConfigFor maxWorkers args logFile []).numWorkers = 0 := by
    simp [poolConfigFor]
  refine ⟨fun _ => rfl, h0, ?_, ?_, ?_, ?_⟩
  · show WorkerPool.start (Except.ok ()) spawn
      ⟨(poolConfigFor maxWorkers args logFile []).numWorkers, args, logFile⟩ = _
    rw [h0]
    rfl
  all_goals
    simp only [List.length_nil, h0, iterationResult_no_cases]
    rfl

/-- C7: once the pool has started, join runs exactly once before control
returns, whether the run-until-failure loop ends normally or an
orchestration-level error escapes it; in the error case the error is then
re-raised to the synchronous caller, while a normal end returns the last
iteration's finalized aggregator. -/
theorem started_pool_joined_exactly_once (total : Nat) (u : Bool)
    (startOutcome : Except Unit (StartedWorkerPool × List Nat))
    (loopFault : Option Unit) (fanout : Nat → Except Reporter Reporter)
    (fuel : Nat) (pool : StartedWorkerPool) (spawned : List Nat)
    (hstart : startOutcome = Except.ok (pool, spawned)) :
    (runAsync total u startOutcome loopFault fanout fuel).joinCount = 1 ∧
    (loopFault = some () →
      runSync (runAsync total u startOutcome loopFault fanout fuel) =
        SyncOutcome.raised RunnerFault.orchestration) ∧
    (loopFault = none →
      runSync (runAsync total u startOutcome loopFault fanout fuel) =
        SyncOutcome.returned
          (runLoop u fanout (shouldContinue u) 0 [Line.announce total]
            fuel).1 ∧
      (iterationResults (shouldContinue u) (iterReporter fanout) 0
          fuel).getLast? =
        some (runLoop u fanout (shouldContinue u) 0 [Line.announce total]
          fuel).1 ∧
      1 ≤ (runLoop u fanout (shouldContinue u) 0 [Line.announce total]
        fuel).1.doneCount) := by
  subst hstart
  cases loopFault with
  | some v =>
      cases v
      exact ⟨rfl, fun _ => rfl, fun h => Option.noConfusion h⟩
  | none =>
      refine ⟨rfl, fun h => Option.noConfusion h, fun _ => ?_⟩
      exact ⟨rfl,
        runLoop_fst u fanout (shouldContinue u) 0 [Line.announce total] fuel,
        runLoop_fst_doneCount u fanout (shouldContinue u) 0
          [Line.announce total] fuel⟩

theorem started_pool_joined_witness :
    (runAsync 3 false (Except.ok (⟨[], [], true, true⟩, [])) none
      (fun _ => Except.ok emptyReporter) 0).joinCount = 1 :=
  (started_pool_joined_exactly_once 3 false
    (Except.ok (⟨[], [], true, true⟩, [])) none
    (fun _ => Except.ok emptyReporter) 0 ⟨[], [], true, true⟩ [] rfl).1

/-- C8: per session the total-test-count announcement is written to the
stream exactly once, before the first iteration; a per-iteration progress
line is written iff the untilFailure flag is set (decided by the flag, not
the iteration count), and those lines are numbered starting from 1. -/
theorem announcement_once_and_progress_iff_untilFailure (total : Nat)
    (u : Bool) (pool : StartedWorkerPool) (spawned : List Nat)
    (fanout : Nat → Except Reporter Reporter) (fuel : Nat) :
    (runAsync total u (Except.ok (pool, spawned)) none fanout
        fuel).stream.head? = some (Line.announce total) ∧
    (runAsync total u (Except.ok (pool, spawned)) none fanout
        fuel).stream.filter isAnnounce = [Line.announce total] ∧
    (runAsync total u (Except.ok (pool, spawned)) none fanout
        fuel).stream.filter isTestPass =
      (if u then
        (List.range (iterationResults (shouldContinue u)
            (iterReporter fanout) 0 fuel).length).map
          (fun i => Line.testPass (i + 1))
      else []) := by
  have hstream : (runAsync total u (Except.ok (pool, spawned)) none fanout
      fuel).stream =
      Line.announce total ::
        loopLines u (iterationResults (shouldContinue u)
          (iterReporter fanout) 0 fuel).length 0 := by
    show (runLoop u fanout (shouldContinue u) 0 [Line.announce total]
      fuel).2 = _
    rw [runLoop_snd]
    rfl
  rw [hstream]
  refine ⟨rfl, ?_, ?_⟩
  · rw [show ∀ l : List Line, (Line.announce total :: l).filter isAnnounce =
      Line.announce total :: l.filter isAnnounce from fun l => by
        simp [isAnnounce]]
    unfold loopLines
    cases u with
    | false => rfl
    | true =>
        rw [if_pos rfl]
        rw [filter_isAnnounce_map_testPass]
  · rw [show ∀ l : List Line, (Line.announce total :: l).filter isTestPass =
      l.filter isTestPass from fun l => by simp [isTestPass]]
    unfold loopLines
    cases u with
    | false => rfl
    | true =>
        rw [if_pos rfl, if_pos rfl]
        rw [filter_isTestPass_map_testPass]
        apply List.map_congr_left
        intro i _
        show Line.testPass (0 + i + 1) = Line.testPass (i + 1)
        congr 1
        omega

/-- C9: every exception caught from a remote run-case call is recorded
through the aggregator's addFailure channel and never through addError:
a case whose RPC call raises gets a failure entry in the driver's output,
and the per-case handler contributes no error entry for it. -/
theorem rpc_exception_recorded_as_failure_never_error
    (rpc : Nat → Except Unit (List Entry)) (r : Reporter) (cs : List Nat)
    (c : Nat) (hmem : c ∈ cs) (herr : rpc c = Except.error ())
    (hinit : Entry.error (CaseId.case c) ∉ r.entries)
    (hok : ∀ c' ∈ cs, ∀ es, rpc c' = Except.ok es →
      Entry.error (CaseId.case c) ∉ es) :
    Entry.failure (CaseId.case c) ∈ (driveWorker rpc r cs).entries ∧
    Entry.error (CaseId.case c) ∉ (driveWorker rpc r cs).entries := by
  rw [driveWorker_entries]
  constructor
  · apply List.mem_append_right
    rw [taskOutput, List.mem_flatMap]
    refine ⟨c, hmem, ?_⟩
    rw [herr]
    exact List.mem_singleton_self _
  · intro hmem'
    rcases List.mem_append.mp hmem' with hin | hin
    · exact hinit hin
    · rw [taskOutput, List.mem_flatMap] at hin
      obtain ⟨b, hb, hbm⟩ := hin
      cases hrb : rpc b with
      | ok es =>
          rw [hrb] at hbm
          exact hok b hb es hrb hbm
      | error e =>
          rw [hrb] at hbm
          have hsingle : Entry.error (CaseId.case c) ∈
              [Entry.failure (CaseId.case b)] := hbm
          simp at hsingle

theorem rpc_exception_failure_witness :
    Entry.failure (CaseId.case 0) ∈
      (driveWorker (fun _ => Except.error ()) emptyReporter [0, 1]).entries ∧
    Entry.error (CaseId.case 0) ∉
      (driveWorker (fun _ => Except.error ()) emptyReporter [0, 1]).entries :=
  rpc_exception_recorded_as_failure_never_error (fun _ => Except.error ())
    emptyReporter [0, 1] 0 (by decide) rfl (by decide)
    (by intro c' _ es hes; cases hes)

/-- C10: if pool startup itself raises (directory/lock claim or spawn
failure), join is never attempted and the startup error propagates
directly to the synchronous caller: the joined-exactly-once guarantee
covers only the loop after start has returned a started pool. -/
theorem startup_failure_skips_join_and_propagates (total : Nat) (u : Bool)
    (loopFault : Option Unit) (fanout : Nat → Except Reporter Reporter)
    (fuel : Nat) (spawn : Nat → Except Unit Unit)
    (cfg : WorkerPoolConfig) :
    WorkerPool.start (Except.error ()) spawn cfg = Except.error () ∧
    WorkerPool.start (Except.ok ()) (fun _ => Except.error ())
      ⟨1, cfg.workerArguments, cfg.logFile⟩ = Except.error () ∧
    (runAsync total u (Except.error ()) loopFault fanout fuel).joinCount =
      0 ∧
    runSync (runAsync total u (Except.error ()) loopFault fanout fuel) =
      SyncOutcome.raised RunnerFault.startup :=
  ⟨rfl, rfl, rfl, rfl⟩

end Disttrial
